import Mathlib

/-!
Shallow embedding of the Plankton `LinearInterpolator` path generator
(`uuv_trajectory_control/src/uuv_trajectory_generator/path_generator/linear_interpolator.py`)
together with the duration-parameter policy of
`uuv_control_utils/scripts/set_thruster_state.py`, and theorems settling the
specification claims about them.

Machine floating point is modelled by real numbers and numpy arrays by lists
of reals.  Python methods are modelled as functions from an explicit generator
state to a result paired with the post state; a Python method body that
assigns no `self` attribute returns its input state unchanged.  A Python
exception (attribute error on `None`, `RuntimeError`) is modelled by the
`Except.error` outcome, while a returned `None` result is `Option.none`.

Classes of this repository that the two provided source files use but whose
own sources are not provided (`uuv_waypoints.Waypoint`, `LineSegment`,
`TrajectoryPoint`, the `PathGenerator` base class) are modelled from the
specification, as are the external library routines the source calls
(`numpy.arange`, `numpy.cumsum`, `tf_quaternion.transformations`, and the
scipy heading spline, the latter kept as an abstract evaluation function).
-/

namespace Plankton

/-- A 3D vector of real coordinates, standing for the numpy position arrays
used throughout the interpolator. -/
structure Vec3 where
  x : ℝ
  y : ℝ
  z : ℝ

instance : Inhabited Vec3 := ⟨⟨0, 0, 0⟩⟩

/-- A quaternion in the `(x, y, z, w)` convention of
`tf_quaternion.transformations`. -/
structure Quat where
  x : ℝ
  y : ℝ
  z : ℝ
  w : ℝ

instance : Inhabited Quat := ⟨⟨0, 0, 0, 1⟩⟩

/-- Modelled from the spec: `tf_quaternion.transformations.quaternion_about_axis`
(external library, not under `src/`): the quaternion of a rotation by `angle`
around the axis `(ax, ay, az)`, the axis being normalised first. -/
noncomputable def quaternion_about_axis (angle ax ay az : ℝ) : Quat :=
  let n := Real.sqrt (ax ^ 2 + ay ^ 2 + az ^ 2)
  { x := ax / n * Real.sin (angle / 2)
    y := ay / n * Real.sin (angle / 2)
    z := az / n * Real.sin (angle / 2)
    w := Real.cos (angle / 2) }

/-- Modelled from the spec: `tf_quaternion.transformations.quaternion_multiply`
(external library, not under `src/`): the Hamilton product `q1 ∘ q0` in the
`(x, y, z, w)` convention. -/
noncomputable def quaternion_multiply (q1 q0 : Quat) : Quat :=
  { x := q1.x * q0.w + q1.y * q0.z - q1.z * q0.y + q1.w * q0.x
    y := -q1.x * q0.z + q1.y * q0.w + q1.z * q0.x + q1.w * q0.y
    z := q1.x * q0.y - q1.y * q0.x + q1.z * q0.w + q1.w * q0.z
    w := -q1.x * q0.x - q1.y * q0.y - q1.z * q0.z + q1.w * q0.w }

/-- Modelled from the spec: `uuv_waypoints.Waypoint` (repository code not under
`src/`): a 3D position with a maximum forward speed and a heading offset. -/
structure Waypoint where
  pos : Vec3
  max_forward_speed : ℝ
  heading_offset : ℝ

instance : Inhabited Waypoint := ⟨⟨default, 0, 0⟩⟩

/-- Modelled from the spec: the `LineSegment` primitive (repository code not
under `src/`): two 3D endpoints `p0`, `p1`. -/
structure LineSegment where
  p0 : Vec3
  p1 : Vec3

instance : Inhabited LineSegment := ⟨⟨default, default⟩⟩

/-- Modelled from the spec: `interpolate(u) = p0 + u·(p1 - p0)`, linear and
unclamped in the local parameter `u`. -/
noncomputable def LineSegment.interpolate (seg : LineSegment) (u : ℝ) : Vec3 :=
  { x := seg.p0.x + u * (seg.p1.x - seg.p0.x)
    y := seg.p0.y + u * (seg.p1.y - seg.p0.y)
    z := seg.p0.z + u * (seg.p1.z - seg.p0.z) }

/-- Modelled from the spec: `length = ‖p1 - p0‖` (Euclidean norm). -/
noncomputable def LineSegment.get_length (seg : LineSegment) : ℝ :=
  Real.sqrt ((seg.p1.x - seg.p0.x) ^ 2 + (seg.p1.y - seg.p0.y) ^ 2 +
    (seg.p1.z - seg.p0.z) ^ 2)

/-- Modelled from the spec: `TrajectoryPoint` (repository code not under
`src/`): a timestamp, a position and an orientation; position and orientation
start out unpopulated on a freshly constructed point. -/
structure TrajectoryPoint where
  t : ℝ
  pos : Option Vec3
  rotq : Option Quat

instance : Inhabited TrajectoryPoint := ⟨⟨0, none, none⟩⟩

/-- Modelled from the spec: the state a `LinearInterpolator` instance carries
(its own fields plus the `PathGenerator` base-class fields the provided source
uses).  `interp_pos` and `heading_fn` are the two entries of
`self._interp_fcns`; `s_table` is `self._s`; the scipy spline object and the
lambda wrapping it are collapsed into the single evaluation function
`heading_fn`.  The `MarkerArray` visualisation message is omitted (pure
visualisation output, never read back). -/
structure GenState where
  waypoints : Option (List Waypoint)
  interp_pos : Option (List LineSegment)
  heading_fn : Option (ℝ → ℝ)
  s_table : List ℝ
  duration : Option ℝ
  start_time : Option ℝ
  last_rot : Quat
  init_rot : Quat
  s_step : ℝ
  marker_id : ℕ
  segment_to_wp_map : List ℕ

/-- Modelled from the spec: a freshly constructed, not yet compiled generator. -/
noncomputable def GenState.fresh : GenState :=
  { waypoints := none
    interp_pos := none
    heading_fn := none
    s_table := []
    duration := none
    start_time := none
    last_rot := default
    init_rot := default
    s_step := 1 / 10000
    marker_id := 0
    segment_to_wp_map := [] }

/-- Modelled from the spec: the environment of library routines whose code is
outside the repository: `splrep_eval s h` is the evaluation function of the
cubic spline fitted through the pairs `(s i, h i)` (scipy `splrep` composed
with `splev`). -/
structure Env where
  splrep_eval : List ℝ → List ℝ → ℝ → ℝ

/-- Modelled from the spec: `PathGenerator._compute_rot_quat` (base-class code
not under `src/`): the look-direction quaternion derived from the tangent
`(dx, dy, dz)`; its yaw follows the horizontal direction of travel, and a
vanishing horizontal tangent falls back to the previous cursor orientation
(the fallback the spec flags for the degenerate case).  Roll and pitch are
left unconstrained in the linear strategy. -/
noncomputable def compute_rot_quat (last_rot : Quat) (dx dy dz : ℝ) : Quat :=
  if dx = 0 ∧ dy = 0 then last_rot
  else quaternion_about_axis (Complex.arg ⟨dx, dy⟩) 0 0 1

/-- Modelled from the spec: `numpy.cumsum` on a list of reals: the running
prefix sums. -/
noncomputable def cumsum : List ℝ → List ℝ
  | [] => []
  | x :: xs => x :: (cumsum xs).map (fun c => x + c)

/-- Modelled from the spec: `numpy.arange start stop step` over the reals:
the values `start + j·step` for `j = 0, 1, …` while they stay below `stop`,
i.e. `⌈(stop - start)/step⌉` of them for a positive `step`. -/
noncomputable def arange (start stop step : ℝ) : List ℝ :=
  (List.range (⌈(stop - start) / step⌉).toNat).map
    (fun (j : ℕ) => start + (j : ℝ) * step)

/-- The `self._interp_fcns['pos']` segment list built by `init_interpolator`
(source lines 107-110): one `LineSegment` joining each pair of consecutive
waypoint positions. -/
noncomputable def segsOf (ws : List Waypoint) : List LineSegment :=
  List.zipWith (fun a b => LineSegment.mk a.pos b.pos) ws ws.tail

/-- The per-segment lengths (source line 113). -/
noncomputable def lensOf (ws : List Waypoint) : List ℝ :=
  (segsOf ws).map LineSegment.get_length

/-- The total of the `[0] + lengths` list (source lines 114-115, the value of
`np.sum(lengths)` there). -/
noncomputable def totalOf (ws : List Waypoint) : ℝ :=
  (0 :: lensOf ws).sum

/-- The arc-length table `self._s = np.cumsum(lengths) / np.sum(lengths)`
(source line 115), with `lengths = [0] + per-segment lengths`. -/
noncomputable def tableOf (ws : List Waypoint) : List ℝ :=
  (cumsum (0 :: lensOf ws)).map (fun c => c / totalOf ws)

/-- `LinearInterpolator.init_interpolator` (source lines 85-128).  A set
`self._duration` / `self._start_time` is kept; an unset one is resolved to the
path-length-over-mean-speed quotient, resp. to `0.0`. -/
noncomputable def init_interpolator (env : Env) (st : GenState) : Bool × GenState :=
  match st.waypoints with
  | none => (false, st)
  | some ws =>
    if ws.length < 2 then (false, st)
    else
      let mean_vel := (ws.map Waypoint.max_forward_speed).sum / ws.length
      (true,
        { st with
            marker_id := 0
            segment_to_wp_map := [0]
            interp_pos := some (segsOf ws)
            s_table := tableOf ws
            duration := some (st.duration.getD (totalOf ws / mean_vel))
            start_time := some (st.start_time.getD 0)
            heading_fn := some
              (env.splrep_eval (tableOf ws) (ws.map Waypoint.heading_offset)) })

/-- Modelled from the spec (§4.2): the index of the first arc-length-table
entry at or above `s` (the smallest `idx` with `s ≤ table[idx]`). -/
noncomputable def findFirstIdx (s : ℝ) : List ℝ → Option ℕ
  | [] => none
  | x :: xs => if s ≤ x then some 0 else (findFirstIdx s xs).map (fun i => i + 1)

/-- Modelled from the spec (§4.2): `PathGenerator.get_segment_idx` (base-class
code not under `src/`): the smallest index `idx` with `s ≤ table[idx]`; a
query beyond every table entry resolves to the last index. -/
noncomputable def GenState.get_segment_idx (st : GenState) (s : ℝ) : ℕ :=
  (findFirstIdx s st.s_table).getD (st.s_table.length - 1)

/-- `LinearInterpolator.generate_pos` (source lines 163-186).  The method body
assigns no attribute, so the post state is the input state. -/
noncomputable def generate_pos (st : GenState) (s : ℝ) : Option Vec3 × GenState :=
  (match st.interp_pos with
   | none => none
   | some segs =>
     let idx := st.get_segment_idx s
     if idx = 0 then
       some ((segs.getD idx default).interpolate 0)
     else
       let u_k := (s - st.s_table.getD (idx - 1) 0) /
         (st.s_table.getD idx 0 - st.s_table.getD (idx - 1) 0)
       some ((segs.getD (idx - 1) default).interpolate u_k),
   st)

/-- `LinearInterpolator.get_samples` (source lines 136-160): positions sampled
at `np.arange(0, 1 + step, step)`, each packed into a `TrajectoryPoint` with
timestamp `0.0` and no orientation.  The method body assigns no attribute. -/
noncomputable def get_samples (st : GenState) (max_time : Option ℝ) (step : ℝ) :
    Option (List TrajectoryPoint) × GenState :=
  (match st.waypoints with
   | none => none
   | some _ =>
     match st.interp_pos with
     | none => none
     | some _ =>
       some ((arange 0 (1 + step) step).map
         (fun i => { t := 0, pos := (generate_pos st i).1, rotq := none })),
   st)

/-- `LinearInterpolator.generate_quat` (source lines 215-258): `s` is clamped
into `[0, 1]`; at `s = 0` the initial orientation is stored and returned;
otherwise the look-direction quaternion of the finite-difference tangent is
composed with the heading-offset rotation about the vertical axis and stored.
A `None` position or heading function would make the Python body raise
(`Except.error`).  The transient `self._last_rot = rotq` store of line 249 is
overwritten by line 257 before the method returns. -/
noncomputable def generate_quat (st : GenState) (s0 : ℝ) :
    Except Unit (Quat × GenState) :=
  let s1 := max 0 s0
  let s := min s1 1
  if s = 0 then
    .ok (st.init_rot, { st with last_rot := st.init_rot })
  else
    let last_s := max 0 (s - st.s_step)
    match (generate_pos st s).1, (generate_pos st last_s).1, st.heading_fn with
    | some this_pos, some last_pos, some hf =>
      let dx := this_pos.x - last_pos.x
      let dy := this_pos.y - last_pos.y
      let dz := this_pos.z - last_pos.z
      let rotq := compute_rot_quat st.last_rot dx dy dz
      let q_step := quaternion_about_axis (hf s) 0 0 1
      let rotq2 := quaternion_multiply rotq q_step
      .ok (rotq2, { st with last_rot := rotq2 })
    | _, _, _ => .error ()

/-- `LinearInterpolator.generate_pnt` (source lines 189-212): timestamp, then
position (where `self.generate_pos(s).tolist()` raises on a `None` position:
`Except.error`), then orientation. -/
noncomputable def generate_pnt (st : GenState) (s t : ℝ) :
    Except Unit (TrajectoryPoint × GenState) :=
  match (generate_pos st s).1 with
  | none => .error ()
  | some p =>
    match generate_quat st s with
    | .error e => .error e
    | .ok (q, st2) => .ok ({ t := t, pos := some p, rotq := some q }, st2)

/-- `LinearInterpolator.set_parameters` (source lines 131-133): accepts and
ignores any configuration. -/
noncomputable def set_parameters (st : GenState) (_params : Unit) : Bool × GenState :=
  (true, st)

/-- Outcome classification for the thruster-script duration parameter:
a positive duration times out and reverts the thruster, a negative one means
the new state is held without bound. -/
inductive DurationKind
  | finite
  | unbounded
deriving DecidableEq

/-- Duration-parameter policy of `set_thruster_state.main` (source lines
63-70 and 131): an absent parameter defaults to `0.0`; a duration equal to
zero raises `RuntimeError` (`Except.error`); a negative duration is logged as
infinite and the revert-after-duration phase is skipped (`if duration > 0`),
so the commanded state is held without bound. -/
noncomputable def thruster_duration_policy (param : Option ℝ) :
    Except Unit DurationKind :=
  let duration := param.getD 0
  if duration = 0 then .error ()
  else if duration < 0 then .ok .unbounded
  else .ok .finite

/-- A trivial spline environment, used to give witnesses concrete inputs. -/
noncomputable def envEx : Env := ⟨fun _ _ _ => 0⟩

lemma Vec3.ext2 (a b : Vec3) (hx : a.x = b.x) (hy : a.y = b.y) (hz : a.z = b.z) :
    a = b := by
  cases a; cases b; simp_all

lemma interpolate_zero (seg : LineSegment) : seg.interpolate 0 = seg.p0 := by
  apply Vec3.ext2 <;> simp [LineSegment.interpolate]

lemma interpolate_one (seg : LineSegment) : seg.interpolate 1 = seg.p1 := by
  apply Vec3.ext2 <;> simp [LineSegment.interpolate]

lemma interpolate_degenerate (seg : LineSegment) (h : seg.p0 = seg.p1) (u : ℝ) :
    seg.interpolate u = seg.p1 := by
  apply Vec3.ext2 <;> simp [LineSegment.interpolate, h]

lemma get_length_nonneg (seg : LineSegment) : 0 ≤ seg.get_length :=
  Real.sqrt_nonneg _

lemma eq_of_get_length_eq_zero (seg : LineSegment) (h : seg.get_length = 0) :
    seg.p0 = seg.p1 := by
  obtain ⟨⟨ax, ay, az⟩, ⟨bx, bb, bz⟩⟩ := seg
  simp only [LineSegment.get_length] at h
  have hsum : (bx - ax) ^ 2 + (bb - ay) ^ 2 + (bz - az) ^ 2 ≤ 0 :=
    Real.sqrt_eq_zero'.mp h
  have hx : bx - ax = 0 := by nlinarith [sq_nonneg (bx - ax), sq_nonneg (bb - ay), sq_nonneg (bz - az)]
  have hy : bb - ay = 0 := by nlinarith [sq_nonneg (bx - ax), sq_nonneg (bb - ay), sq_nonneg (bz - az)]
  have hz : bz - az = 0 := by nlinarith [sq_nonneg (bx - ax), sq_nonneg (bb - ay), sq_nonneg (bz - az)]
  apply Vec3.ext2 <;> simp <;> linarith

lemma getD_map_lt {α β : Type} (f : α → β) (l : List α) (i : ℕ)
    (h : i < l.length) (d1 : β) (d2 : α) :
    (l.map f).getD i d1 = f (l.getD i d2) := by
  induction l generalizing i with
  | nil => simp at h
  | cons x xs ih =>
    cases i with
    | zero => simp
    | succ i => simpa using ih i (by simpa using h)

lemma cumsum_length (xs : List ℝ) : (cumsum xs).length = xs.length := by
  induction xs with
  | nil => rfl
  | cons x xs ih => simp [cumsum, ih]

lemma cumsum_getD (xs : List ℝ) (i : ℕ) (h : i < xs.length) :
    (cumsum xs).getD i 0 = (xs.take (i + 1)).sum := by
  induction xs generalizing i with
  | nil => simp at h
  | cons x xs ih =>
    cases i with
    | zero => simp [cumsum]
    | succ i =>
      have hbound : i < (cumsum xs).length := by
        rw [cumsum_length]; simpa using h
      simp only [cumsum, List.getD_cons_succ, List.take_succ_cons, List.sum_cons]
      rw [getD_map_lt _ _ _ hbound 0 0, ih i (by simpa using h)]

lemma sum_take_mono (xs : List ℝ) (hx : ∀ x ∈ xs, 0 ≤ x) (i j : ℕ) (hij : i ≤ j) :
    (xs.take i).sum ≤ (xs.take j).sum := by
  have hsplit : xs.take j = xs.take i ++ (xs.drop i).take (j - i) := by
    rw [← List.take_add]
    congr 1
    omega
  rw [hsplit, List.sum_append]
  have h2 : 0 ≤ ((xs.drop i).take (j - i)).sum := by
    apply List.sum_nonneg
    intro x hmem
    exact hx x (List.mem_of_mem_drop (List.mem_of_mem_take hmem))
  linarith

lemma sum_take_le (xs : List ℝ) (hx : ∀ x ∈ xs, 0 ≤ x) (i : ℕ) :
    (xs.take i).sum ≤ xs.sum := by
  rcases le_total i xs.length with h | h
  · have := sum_take_mono xs hx i xs.length h
    simpa using this
  · rw [List.take_of_length_le h]

lemma all_zero_of_sum_zero (xs : List ℝ) (hx : ∀ x ∈ xs, 0 ≤ x)
    (h0 : xs.sum = 0) : ∀ x ∈ xs, x = 0 := by
  intro x hm
  have h1 : x ≤ xs.sum := List.single_le_sum hx x hm
  have h2 := hx x hm
  linarith [h0 ▸ h1]

lemma findFirstIdx_none (s : ℝ) (xs : List ℝ) (h : ∀ x ∈ xs, ¬ s ≤ x) :
    findFirstIdx s xs = none := by
  induction xs with
  | nil => rfl
  | cons x xs ih =>
    rw [findFirstIdx, if_neg (h x (List.mem_cons_self x xs))]
    rw [ih (fun y hy => h y (List.mem_cons_of_mem x hy))]
    rfl

lemma findFirstIdx_some (s : ℝ) (xs : List ℝ) (m : ℕ)
    (h : findFirstIdx s xs = some m) :
    m < xs.length ∧ s ≤ xs.getD m 0 ∧ ∀ j, j < m → ¬ s ≤ xs.getD j 0 := by
  induction xs generalizing m with
  | nil => simp [findFirstIdx] at h
  | cons x xs ih =>
    rw [findFirstIdx] at h
    by_cases hx : s ≤ x
    · rw [if_pos hx] at h
      obtain rfl : m = 0 := by simpa using h.symm
      exact ⟨by simp, by simpa using hx, by omega⟩
    · rw [if_neg hx] at h
      obtain ⟨m0, hm0, rfl⟩ : ∃ m0, findFirstIdx s xs = some m0 ∧ m = m0 + 1 := by
        rcases hfi : findFirstIdx s xs with _ | m0
        · rw [hfi] at h; simp at h
        · rw [hfi] at h
          exact ⟨m0, rfl, by simpa using h.symm⟩
      obtain ⟨hlt, hle, hmin⟩ := ih m0 hm0
      refine ⟨by simpa using hlt, by simpa using hle, ?_⟩
      intro j hj
      cases j with
      | zero => simpa using hx
      | succ j => simpa using hmin j (by omega)

lemma findFirstIdx_ne_none (s : ℝ) (xs : List ℝ) (x : ℝ) (hm : x ∈ xs)
    (hs : s ≤ x) : findFirstIdx s xs ≠ none := by
  induction xs with
  | nil => simp at hm
  | cons y ys ih =>
    rw [findFirstIdx]
    by_cases hy : s ≤ y
    · simp [hy]
    · rw [if_neg hy]
      rcases List.mem_cons.mp hm with rfl | hmem
      · exact absurd hs hy
      · intro hcontra
        apply ih hmem
        simpa using hcontra

lemma segsOf_cons (a b : Waypoint) (t : List Waypoint) :
    segsOf (a :: b :: t) = LineSegment.mk a.pos b.pos :: segsOf (b :: t) := rfl

lemma segsOf_length (ws : List Waypoint) (h : 1 ≤ ws.length) :
    (segsOf ws).length = ws.length - 1 := by
  simp only [segsOf, List.length_zipWith, List.length_tail]
  omega

lemma lensOf_length (ws : List Waypoint) (h : 1 ≤ ws.length) :
    (lensOf ws).length = ws.length - 1 := by
  simp [lensOf, segsOf_length ws h]

lemma lensOf_nonneg (ws : List Waypoint) : ∀ x ∈ lensOf ws, 0 ≤ x := by
  intro x hm
  obtain ⟨seg, _, rfl⟩ := List.mem_map.mp hm
  exact get_length_nonneg seg

lemma totalOf_eq (ws : List Waypoint) : totalOf ws = (lensOf ws).sum := by
  simp [totalOf]

lemma segsOf_getD (ws : List Waypoint) (i : ℕ) (h : i + 1 < ws.length) :
    (segsOf ws).getD i default =
      LineSegment.mk (ws.getD i default).pos (ws.getD (i + 1) default).pos := by
  induction ws generalizing i with
  | nil => simp at h
  | cons a t ih =>
    cases t with
    | nil => simp at h
    | cons b t2 =>
      cases i with
      | zero => simp [segsOf_cons]
      | succ i =>
        rw [segsOf_cons, List.getD_cons_succ, List.getD_cons_succ,
          List.getD_cons_succ]
        exact ih i (by simpa using h)

lemma lensOf_getD (ws : List Waypoint) (i : ℕ) (h : i + 1 < ws.length) :
    (lensOf ws).getD i 0 = ((segsOf ws).getD i default).get_length := by
  have hb : i < (segsOf ws).length := by
    rw [segsOf_length ws (by omega)]
    omega
  exact getD_map_lt _ _ _ hb 0 default

lemma tableOf_head (ws : List Waypoint) :
    tableOf ws = 0 :: ((cumsum (lensOf ws)).map
      (fun c => (0 + c) / totalOf ws)) := by
  simp [tableOf, cumsum, List.map_map, Function.comp]

lemma tableOf_length (ws : List Waypoint) (h : 1 ≤ ws.length) :
    (tableOf ws).length = ws.length := by
  simp only [tableOf, List.length_map, cumsum_length, List.length_cons,
    lensOf_length ws h]
  omega

lemma tableOf_getD (ws : List Waypoint) (i : ℕ) (h : i < ws.length) :
    (tableOf ws).getD i 0 = ((lensOf ws).take i).sum / totalOf ws := by
  have h1 : 1 ≤ ws.length := by omega
  have hb : i < (cumsum (0 :: lensOf ws)).length := by
    rw [cumsum_length, List.length_cons, lensOf_length ws h1]
    omega
  rw [tableOf, getD_map_lt _ _ _ hb 0 0,
    cumsum_getD _ _ (by rw [List.length_cons, lensOf_length ws h1]; omega),
    List.take_succ_cons, List.sum_cons, zero_add]

lemma generate_pos_val (st : GenState) (segs : List LineSegment)
    (hp : st.interp_pos = some segs) (s : ℝ) :
    (generate_pos st s).1 =
      (if st.get_segment_idx s = 0 then
        some ((segs.getD (st.get_segment_idx s) default).interpolate 0)
      else
        some ((segs.getD (st.get_segment_idx s - 1) default).interpolate
          ((s - st.s_table.getD (st.get_segment_idx s - 1) 0) /
           (st.s_table.getD (st.get_segment_idx s) 0 -
            st.s_table.getD (st.get_segment_idx s - 1) 0)))) := by
  simp only [generate_pos, hp]

lemma generate_pos_isSome (st : GenState) (segs : List LineSegment)
    (hp : st.interp_pos = some segs) (s : ℝ) :
    ∃ v, (generate_pos st s).1 = some v := by
  rw [generate_pos_val st segs hp s]
  split_ifs <;> exact ⟨_, rfl⟩

lemma getD_mem {α : Type} (l : List α) (i : ℕ) (h : i < l.length) (d : α) :
    l.getD i d ∈ l := by
  induction l generalizing i with
  | nil => simp at h
  | cons x xs ih =>
    cases i with
    | zero => simp
    | succ i => exact List.mem_cons_of_mem x (by simpa using ih i (by simpa using h))

lemma getD_indep {α : Type} (l : List α) (i : ℕ) (h : i < l.length) (d1 d2 : α) :
    l.getD i d1 = l.getD i d2 := by
  induction l generalizing i with
  | nil => simp at h
  | cons x xs ih =>
    cases i with
    | zero => rfl
    | succ i => simpa using ih i (by simpa using h)

lemma getD_drop_eq (l : List ℝ) (m i : ℕ) (h : m + i < l.length) :
    (l.drop m).getD i 0 = l.getD (m + i) 0 := by
  induction m generalizing l with
  | zero => simp
  | succ m ih =>
    cases l with
    | nil => simp at h
    | cons x xs =>
      have hidx : m + 1 + i = (m + i) + 1 := by omega
      rw [hidx, List.getD_cons_succ, List.drop_succ_cons]
      exact ih xs (by simp at h; omega)

lemma pos_chain_aux (ws : List Waypoint) (a : ℕ) :
    ∀ d : ℕ, a + d < ws.length →
      (∀ j, a ≤ j → j + 1 ≤ a + d →
        (ws.getD j default).pos = (ws.getD (j + 1) default).pos) →
      (ws.getD a default).pos = (ws.getD (a + d) default).pos := by
  intro d
  induction d with
  | zero => intro _ _; rfl
  | succ d ih =>
    intro hb h
    have h1 := ih (by omega) (fun j hj1 hj2 => h j hj1 (by omega))
    have h2 := h (a + d) (by omega) (by omega)
    exact h1.trans h2

lemma pos_chain (ws : List Waypoint) (a b : ℕ) (hab : a ≤ b) (hb : b < ws.length)
    (h : ∀ j, a ≤ j → j + 1 ≤ b →
      (ws.getD j default).pos = (ws.getD (j + 1) default).pos) :
    (ws.getD a default).pos = (ws.getD b default).pos := by
  have hr := pos_chain_aux ws a (b - a) (by omega)
    (fun j hj1 hj2 => h j hj1 (by omega))
  have heq : a + (b - a) = b := by omega
  rw [heq] at hr
  exact hr

lemma getLastD_eq_getD (ws : List Waypoint) : ∀ d : Waypoint, ws ≠ [] →
    ws.getLastD d = ws.getD (ws.length - 1) d := by
  induction ws with
  | nil => intro d h; simp at h
  | cons a t ih =>
    intro d _
    cases t with
    | nil => rfl
    | cons b t2 =>
      have h1 : (a :: b :: t2).getLastD d = (b :: t2).getLastD a := rfl
      rw [h1, ih a (by simp)]
      have h2 : (a :: b :: t2).length - 1 = ((b :: t2).length - 1) + 1 := by
        simp
      rw [h2, List.getD_cons_succ]
      exact getD_indep _ _ (by simp) a d

lemma init_interpolator_eq (env : Env) (st : GenState) (ws : List Waypoint)
    (hw : st.waypoints = some ws) (h2 : 2 ≤ ws.length) :
    init_interpolator env st =
      (true,
        { st with
            marker_id := 0
            segment_to_wp_map := [0]
            interp_pos := some (segsOf ws)
            s_table := tableOf ws
            duration := some (st.duration.getD (totalOf ws /
              ((ws.map Waypoint.max_forward_speed).sum / ws.length)))
            start_time := some (st.start_time.getD 0)
            heading_fn := some
              (env.splrep_eval (tableOf ws) (ws.map Waypoint.heading_offset)) }) := by
  simp only [init_interpolator, hw]
  rw [if_neg (by omega)]

lemma get_segment_idx_at_zero (st : GenState) (ws : List Waypoint)
    (ht : st.s_table = tableOf ws) : st.get_segment_idx 0 = 0 := by
  rw [GenState.get_segment_idx, ht, tableOf_head, findFirstIdx, if_pos le_rfl]
  rfl

lemma generate_pos_at_zero (st : GenState) (ws : List Waypoint)
    (h2 : 2 ≤ ws.length) (hp : st.interp_pos = some (segsOf ws))
    (ht : st.s_table = tableOf ws) :
    (generate_pos st 0).1 = some ((ws.getD 0 default).pos) := by
  rw [generate_pos_val st _ hp 0, if_pos (get_segment_idx_at_zero st ws ht),
    get_segment_idx_at_zero st ws ht, interpolate_zero,
    segsOf_getD ws 0 (by omega)]

lemma generate_pos_at_one (st : GenState) (ws : List Waypoint)
    (h2 : 2 ≤ ws.length) (hp : st.interp_pos = some (segsOf ws))
    (ht : st.s_table = tableOf ws) :
    (generate_pos st 1).1 = some ((ws.getD (ws.length - 1) default).pos) := by
  have h1 : 1 ≤ ws.length := by omega
  have hlen_l : (lensOf ws).length = ws.length - 1 := lensOf_length ws h1
  have hlen : st.s_table.length = ws.length := by
    rw [ht]; exact tableOf_length ws h1
  by_cases hL : (lensOf ws).sum = 0
  · have htot : totalOf ws = 0 := by rw [totalOf_eq]; exact hL
    have hall : ∀ x ∈ st.s_table, ¬ (1 : ℝ) ≤ x := by
      intro x hx
      rw [ht, tableOf] at hx
      obtain ⟨c, _, rfl⟩ := List.mem_map.mp hx
      rw [htot, div_zero]
      norm_num
    have hidx : st.get_segment_idx 1 = st.s_table.length - 1 := by
      rw [GenState.get_segment_idx, findFirstIdx_none 1 _ hall]
      rfl
    have hne : st.get_segment_idx 1 ≠ 0 := by rw [hidx, hlen]; omega
    rw [generate_pos_val st _ hp 1, if_neg hne, hidx, hlen]
    have hn2 : ws.length - 1 - 1 = ws.length - 2 := by omega
    rw [hn2]
    have hlenj : (lensOf ws).getD (ws.length - 2) 0 =
        ((segsOf ws).getD (ws.length - 2) default).get_length :=
      lensOf_getD ws (ws.length - 2) (by omega)
    have hzmem : (lensOf ws).getD (ws.length - 2) 0 ∈ lensOf ws :=
      getD_mem _ _ (by rw [hlen_l]; omega) 0
    have hz : (lensOf ws).getD (ws.length - 2) 0 = 0 :=
      all_zero_of_sum_zero _ (lensOf_nonneg ws) hL _ hzmem
    have hseg : ((segsOf ws).getD (ws.length - 2) default).p0 =
        ((segsOf ws).getD (ws.length - 2) default).p1 :=
      eq_of_get_length_eq_zero _ (by rw [← hlenj]; exact hz)
    rw [interpolate_degenerate _ hseg, segsOf_getD ws (ws.length - 2) (by omega)]
    have hn3 : ws.length - 2 + 1 = ws.length - 1 := by omega
    rw [hn3]
  · have hpos : 0 < (lensOf ws).sum :=
      lt_of_le_of_ne (List.sum_nonneg (lensOf_nonneg ws)) (Ne.symm hL)
    have hentry : st.s_table.getD (ws.length - 1) 0 = 1 := by
      rw [ht, tableOf_getD ws (ws.length - 1) (by omega), ← hlen_l,
        List.take_length, totalOf_eq]
      exact div_self hL
    have hmem : st.s_table.getD (ws.length - 1) 0 ∈ st.s_table :=
      getD_mem _ _ (by omega) 0
    have hne_none : findFirstIdx 1 st.s_table ≠ none :=
      findFirstIdx_ne_none 1 _ _ hmem (by rw [hentry])
    obtain ⟨m, hm⟩ : ∃ m, findFirstIdx 1 st.s_table = some m := by
      rcases hfi : findFirstIdx 1 st.s_table with _ | m
      · exact absurd hfi hne_none
      · exact ⟨m, rfl⟩
    obtain ⟨hmlt, hmle, hmmin⟩ := findFirstIdx_some 1 _ m hm
    have hidx : st.get_segment_idx 1 = m := by
      rw [GenState.get_segment_idx, hm]
      rfl
    have hm0 : st.s_table.getD 0 0 = 0 := by
      rw [ht, tableOf_getD ws 0 (by omega)]
      simp
    have hm1 : 1 ≤ m := by
      by_contra hc
      have hmz : m = 0 := by omega
      rw [hmz, hm0] at hmle
      norm_num at hmle
    have hm_eq : st.s_table.getD m 0 = 1 := by
      refine le_antisymm ?_ hmle
      rw [ht, tableOf_getD ws m (by omega), totalOf_eq, div_le_one hpos]
      exact sum_take_le _ (lensOf_nonneg ws) m
    have hm_prev : st.s_table.getD (m - 1) 0 < 1 := by
      have hmm := hmmin (m - 1) (by omega)
      push_neg at hmm
      exact hmm
    have hne0 : st.get_segment_idx 1 ≠ 0 := by rw [hidx]; omega
    rw [generate_pos_val st _ hp 1, if_neg hne0, hidx, hm_eq]
    have hu : (1 - st.s_table.getD (m - 1) 0) /
        (1 - st.s_table.getD (m - 1) 0) = 1 := div_self (by linarith)
    rw [hu, interpolate_one, segsOf_getD ws (m - 1) (by omega)]
    have hidx3 : m - 1 + 1 = m := by omega
    rw [hidx3]
    congr 1
    have hSm : ((lensOf ws).take m).sum = (lensOf ws).sum := by
      rw [ht, tableOf_getD ws m (by omega), totalOf_eq] at hm_eq
      exact (div_eq_one_iff_eq hL).mp hm_eq
    have hdrop : ((lensOf ws).drop m).sum = 0 := by
      have hsplit := List.sum_take_add_sum_drop (lensOf ws) m
      linarith
    apply pos_chain ws m (ws.length - 1) (by omega) (by omega)
    intro j hj1 hj2
    have hjlen : (lensOf ws).getD j 0 = 0 := by
      have hrewr : (lensOf ws).getD j 0 = ((lensOf ws).drop m).getD (j - m) 0 := by
        rw [getD_drop_eq _ m (j - m) (by omega)]
        congr 1
        omega
      rw [hrewr]
      refine all_zero_of_sum_zero _ ?_ hdrop _
        (getD_mem _ _ (by rw [List.length_drop]; omega) 0)
      intro x hx
      exact lensOf_nonneg ws x (List.mem_of_mem_drop hx)
    have hlenj := lensOf_getD ws j (by omega)
    have hlen0 : ((segsOf ws).getD j default).get_length = 0 := by
      rw [← hlenj]
      exact hjlen
    have hpq := eq_of_get_length_eq_zero _ hlen0
    rw [segsOf_getD ws j (by omega)] at hpq
    exact hpq

/-- Example waypoint at the origin with unit speed and zero heading offset. -/
noncomputable def wpA : Waypoint := ⟨⟨0, 0, 0⟩, 1, 0⟩

/-- Example waypoint at `(1, 0, 0)` with unit speed and zero heading offset. -/
noncomputable def wpB : Waypoint := ⟨⟨1, 0, 0⟩, 1, 0⟩

/-- The unit segment from the origin to `(1, 0, 0)`. -/
noncomputable def seg01 : LineSegment := ⟨⟨0, 0, 0⟩, ⟨1, 0, 0⟩⟩

/-- A fresh generator loaded with the two example waypoints. -/
noncomputable def stAB : GenState :=
  { GenState.fresh with waypoints := some [wpA, wpB] }

/-- A fresh generator loaded with two coincident waypoints. -/
noncomputable def stAA : GenState :=
  { GenState.fresh with waypoints := some [wpA, wpA] }

/-- A compiled generator over the unit segment, with arc-length table
`[0, 1]` and a zero heading function. -/
noncomputable def stEx : GenState :=
  { waypoints := some [wpA, wpB]
    interp_pos := some [seg01]
    heading_fn := some (fun _ => 0)
    s_table := [0, 1]
    duration := some 1
    start_time := some 0
    last_rot := ⟨0, 0, 0, 1⟩
    init_rot := ⟨0, 0, 0, 1⟩
    s_step := 1 / 10000
    marker_id := 0
    segment_to_wp_map := [0] }

lemma stEx_idx (s : ℝ) (h0 : ¬ s ≤ 0) : stEx.get_segment_idx s = 1 := by
  show (findFirstIdx s [0, 1]).getD 1 = 1
  by_cases h1 : s ≤ 1
  · rw [findFirstIdx, if_neg h0, findFirstIdx, if_pos h1]
    rfl
  · rw [findFirstIdx, if_neg h0, findFirstIdx, if_neg h1]
    rfl

lemma stEx_pos (s : ℝ) (h0 : ¬ s ≤ 0) :
    (generate_pos stEx s).1 = some ⟨s, 0, 0⟩ := by
  rw [generate_pos_val stEx [seg01] rfl s,
    if_neg (by rw [stEx_idx s h0]; omega), stEx_idx s h0]
  have ht0 : stEx.s_table.getD 0 0 = 0 := rfl
  have ht1 : stEx.s_table.getD 1 0 = 1 := rfl
  rw [ht0, ht1]
  congr 1
  apply Vec3.ext2 <;> simp [LineSegment.interpolate, seg01]

lemma stEx_pos_zero : (generate_pos stEx 0).1 = some ⟨0, 0, 0⟩ := by
  have hidx : stEx.get_segment_idx 0 = 0 := by
    show (findFirstIdx 0 [0, 1]).getD 1 = 0
    rw [findFirstIdx, if_pos le_rfl]
    rfl
  rw [generate_pos_val stEx [seg01] rfl 0, if_pos hidx, hidx, interpolate_zero]
  rfl

/-- C1: for every waypoint set with at least two waypoints,
`init_interpolator()` succeeds, and afterwards `generate_pos(0)` returns the
first waypoint's position and `generate_pos(1)` the last waypoint's
position. -/
theorem c1_init_endpoints (env : Env) (st : GenState) (w0 w1 : Waypoint)
    (rest : List Waypoint) (hw : st.waypoints = some (w0 :: w1 :: rest)) :
    (init_interpolator env st).1 = true ∧
    (generate_pos (init_interpolator env st).2 0).1 = some w0.pos ∧
    (generate_pos (init_interpolator env st).2 1).1 =
      some (((w0 :: w1 :: rest).getLastD default).pos) := by
  have h2 : 2 ≤ (w0 :: w1 :: rest).length := by simp
  rw [init_interpolator_eq env st _ hw h2]
  refine ⟨rfl, ?_, ?_⟩
  · rw [generate_pos_at_zero _ (w0 :: w1 :: rest) h2 rfl rfl]
    rfl
  · rw [generate_pos_at_one _ (w0 :: w1 :: rest) h2 rfl rfl,
      getLastD_eq_getD _ default (by simp)]

/-- C1 witness: the claim instantiated on a fresh generator loaded with the
two example waypoints; the endpoints evaluate to `(0,0,0)` and `(1,0,0)`. -/
theorem c1_init_endpoints_witness :
    stAB.waypoints = some (wpA :: wpB :: []) ∧
    ((init_interpolator envEx stAB).1 = true ∧
      (generate_pos (init_interpolator envEx stAB).2 0).1 = some wpA.pos ∧
      (generate_pos (init_interpolator envEx stAB).2 1).1 =
        some (((wpA :: wpB :: []).getLastD default).pos)) ∧
    wpA.pos = ⟨0, 0, 0⟩ ∧ ((wpA :: wpB :: []).getLastD default).pos = ⟨1, 0, 0⟩ :=
  ⟨rfl, c1_init_endpoints envEx stAB wpA wpB [] rfl, rfl, rfl⟩

/-- C2 is refuted as stated: on two coincident waypoints `init_interpolator`
succeeds, yet the arc-length table it builds is `[0/0, 0/0] = [0, 0]` in the
real model (numpy produces `NaN` entries there), so the last entry is not 1. -/
theorem c2_table_cex :
    (init_interpolator envEx stAA).1 = true ∧
    (init_interpolator envEx stAA).2.s_table.length = 2 ∧
    (init_interpolator envEx stAA).2.s_table.getD 1 0 ≠ 1 := by
  rw [init_interpolator_eq envEx stAA [wpA, wpA] rfl (by simp)]
  refine ⟨rfl, ?_, ?_⟩
  · show (tableOf [wpA, wpA]).length = 2
    rw [tableOf_length _ (by simp)]
    rfl
  · show (tableOf [wpA, wpA]).getD 1 0 ≠ 1
    rw [tableOf_getD _ 1 (by simp), totalOf_eq]
    have hl : lensOf [wpA, wpA] = [LineSegment.get_length ⟨wpA.pos, wpA.pos⟩] := rfl
    have hz : LineSegment.get_length ⟨wpA.pos, wpA.pos⟩ = 0 := by
      simp [LineSegment.get_length]
    rw [hl, hz]
    norm_num

/-- C2 (amended): after a successful `init_interpolator()` on `n` waypoints
the arc-length table has exactly `n` entries, starts at 0, is monotonically
non-decreasing, and entry `i` equals the sum of the lengths of segments
`0..i-1` divided by the total path length; its last entry is 1 provided the
total path length is positive (with all waypoints coincident the total is 0
and the last entry is `0/0`: 0 in the real model, NaN in numpy). -/
theorem c2_table_amended (env : Env) (st : GenState) (ws : List Waypoint)
    (hw : st.waypoints = some ws) (h2 : 2 ≤ ws.length) :
    (init_interpolator env st).1 = true ∧
    (init_interpolator env st).2.s_table.length = ws.length ∧
    (init_interpolator env st).2.s_table.getD 0 0 = 0 ∧
    (∀ i j, i ≤ j → j < ws.length →
      (init_interpolator env st).2.s_table.getD i 0 ≤
        (init_interpolator env st).2.s_table.getD j 0) ∧
    (∀ i, i < ws.length →
      (init_interpolator env st).2.s_table.getD i 0 =
        ((lensOf ws).take i).sum / (lensOf ws).sum) ∧
    (0 < (lensOf ws).sum →
      (init_interpolator env st).2.s_table.getD (ws.length - 1) 0 = 1) := by
  rw [init_interpolator_eq env st ws hw h2]
  have h1 : 1 ≤ ws.length := by omega
  refine ⟨rfl, ?_, ?_, ?_, ?_, ?_⟩
  · show (tableOf ws).length = ws.length
    exact tableOf_length ws h1
  · show (tableOf ws).getD 0 0 = 0
    rw [tableOf_getD ws 0 (by omega)]
    simp
  · intro i j hij hj
    show (tableOf ws).getD i 0 ≤ (tableOf ws).getD j 0
    rw [tableOf_getD ws i (by omega), tableOf_getD ws j (by omega), totalOf_eq]
    rcases eq_or_lt_of_le (List.sum_nonneg (lensOf_nonneg ws)) with hz | hpos
    · rw [← hz]
      simp
    · exact (div_le_div_iff_of_pos_right hpos).mpr
        (sum_take_mono _ (lensOf_nonneg ws) i j hij)
  · intro i hi
    show (tableOf ws).getD i 0 = ((lensOf ws).take i).sum / (lensOf ws).sum
    rw [tableOf_getD ws i (by omega), totalOf_eq]
  · intro hpos
    show (tableOf ws).getD (ws.length - 1) 0 = 1
    rw [tableOf_getD ws (ws.length - 1) (by omega), totalOf_eq,
      ← lensOf_length ws h1, List.take_length]
    exact div_self (ne_of_gt hpos)

/-- C2 (amended) witness: on the two example waypoints the table is monotone
with first entry 0, and its last entry is 1 since the total length is 1. -/
theorem c2_table_amended_witness :
    stAB.waypoints = some [wpA, wpB] ∧ 2 ≤ ([wpA, wpB] : List Waypoint).length ∧
    (init_interpolator envEx stAB).1 = true ∧
    (init_interpolator envEx stAB).2.s_table.getD 0 0 = 0 ∧
    (0 < (lensOf [wpA, wpB]).sum →
      (init_interpolator envEx stAB).2.s_table.getD 1 0 = 1) ∧
    0 < (lensOf [wpA, wpB]).sum := by
  have h := c2_table_amended envEx stAB [wpA, wpB] rfl (by simp)
  refine ⟨rfl, by simp, h.1, h.2.2.1, ?_, ?_⟩
  · intro hpos
    exact h.2.2.2.2.2 hpos
  · have hl : lensOf [wpA, wpB] = [LineSegment.get_length ⟨wpA.pos, wpB.pos⟩] := rfl
    have hs : LineSegment.get_length ⟨wpA.pos, wpB.pos⟩ = 1 := by
      show Real.sqrt ((1 - 0) ^ 2 + (0 - 0) ^ 2 + (0 - 0) ^ 2) = 1
      norm_num
    rw [hl, hs]
    norm_num

/-- C3: on a compiled generator, `generate_pos(s)` resolves
`idx = get_segment_idx(s)` and returns segment 0 interpolated at local
parameter 0 when `idx = 0`, otherwise segment `idx - 1` interpolated at
`u_k = (s - table[idx-1]) / (table[idx] - table[idx-1])`. -/
theorem c3_pos_resolution (st : GenState) (segs : List LineSegment)
    (hp : st.interp_pos = some segs) (s : ℝ) :
    (generate_pos st s).1 =
      (if st.get_segment_idx s = 0 then
        some ((segs.getD 0 default).interpolate 0)
      else
        some ((segs.getD (st.get_segment_idx s - 1) default).interpolate
          ((s - st.s_table.getD (st.get_segment_idx s - 1) 0) /
           (st.s_table.getD (st.get_segment_idx s) 0 -
            st.s_table.getD (st.get_segment_idx s - 1) 0)))) := by
  rw [generate_pos_val st segs hp s]
  split_ifs with h
  · rw [h]
  · rfl

/-- C3 witness: instantiated on the compiled example generator at `s = 1/2`,
where the resolved position evaluates to the midpoint `(1/2, 0, 0)`. -/
theorem c3_pos_resolution_witness :
    stEx.interp_pos = some [seg01] ∧
    ((generate_pos stEx (1/2)).1 =
      (if stEx.get_segment_idx (1/2) = 0 then
        some ((([seg01] : List LineSegment).getD 0 default).interpolate 0)
      else
        some ((([seg01] : List LineSegment).getD
            (stEx.get_segment_idx (1/2) - 1) default).interpolate
          (((1/2 : ℝ) - stEx.s_table.getD (stEx.get_segment_idx (1/2) - 1) 0) /
           (stEx.s_table.getD (stEx.get_segment_idx (1/2)) 0 -
            stEx.s_table.getD (stEx.get_segment_idx (1/2) - 1) 0))))) ∧
    (generate_pos stEx (1/2)).1 = some ⟨1/2, 0, 0⟩ :=
  ⟨rfl, c3_pos_resolution stEx [seg01] rfl (1/2),
    stEx_pos (1/2) (by norm_num)⟩

/-- C5: for every `s ≤ 0` (`s` is clamped into `[0,1]`), `generate_quat`
returns the fixed initial orientation constant regardless of path shape and
stores it in the last-orientation cursor. -/
theorem c5_quat_at_zero (st : GenState) (s : ℝ) (hs : s ≤ 0) :
    generate_quat st s =
      .ok (st.init_rot, { st with last_rot := st.init_rot }) := by
  have h2 : min (max 0 s) 1 = 0 := by
    rw [max_eq_left hs]
    exact min_eq_left zero_le_one
  simp [generate_quat, h2]

/-- C5 witness: at `s = -1` on the compiled example generator. -/
theorem c5_quat_at_zero_witness :
    (-1 : ℝ) ≤ 0 ∧
    generate_quat stEx (-1) =
      .ok (stEx.init_rot, { stEx with last_rot := stEx.init_rot }) :=
  ⟨by norm_num, c5_quat_at_zero stEx (-1) (by norm_num)⟩

/-- C7: `init_interpolator` fails without modifying any state when the
waypoint set is absent or has fewer than two waypoints, and a not-compiled
generator returns an absent result from `generate_pos` and `get_samples`. -/
theorem c7_preconditions (env : Env) (st : GenState) :
    (st.waypoints = none → init_interpolator env st = (false, st)) ∧
    (∀ ws, st.waypoints = some ws → ws.length < 2 →
      init_interpolator env st = (false, st)) ∧
    (st.interp_pos = none → ∀ s, (generate_pos st s).1 = none) ∧
    (st.interp_pos = none → ∀ mt step, (get_samples st mt step).1 = none) := by
  refine ⟨?_, ?_, ?_, ?_⟩
  · intro h
    simp [init_interpolator, h]
  · intro ws hw hlen
    simp [init_interpolator, hw, if_pos hlen]
  · intro h s
    simp [generate_pos, h]
  · intro h mt step
    rcases hw : st.waypoints with _ | ws
    · simp [get_samples, hw]
    · simp [get_samples, hw, h]

/-- C7 witness: on a freshly constructed generator (no waypoints, not
compiled). -/
theorem c7_preconditions_witness :
    GenState.fresh.waypoints = none ∧ GenState.fresh.interp_pos = none ∧
    init_interpolator envEx GenState.fresh = (false, GenState.fresh) ∧
    (generate_pos GenState.fresh 0).1 = none ∧
    (get_samples GenState.fresh none (1/1000)).1 = none := by
  have h := c7_preconditions envEx GenState.fresh
  exact ⟨rfl, rfl, h.1 rfl, h.2.2.1 rfl 0, h.2.2.2 rfl none (1/1000)⟩

/-- C9: a duration parameter equal to zero (or absent, defaulting to zero)
is surfaced as an explicit failure, while a negative duration is accepted as
the sentinel for an unbounded duration. -/
theorem c9_duration_policy :
    thruster_duration_policy (some 0) = .error () ∧
    thruster_duration_policy none = .error () ∧
    ∀ d : ℝ, d < 0 → thruster_duration_policy (some d) = .ok .unbounded := by
  refine ⟨by simp [thruster_duration_policy], by simp [thruster_duration_policy], ?_⟩
  intro d hd
  simp only [thruster_duration_policy, Option.getD_some]
  rw [if_neg (ne_of_lt hd), if_pos hd]

/-- C9 witness: at duration `-1`. -/
theorem c9_duration_policy_witness :
    (-1 : ℝ) < 0 ∧ thruster_duration_policy (some (-1)) = .ok .unbounded :=
  ⟨by norm_num, c9_duration_policy.2.2 (-1) (by norm_num)⟩

/-- C10: `generate_pos` and `get_samples` leave the whole generator state
unchanged, and `generate_quat` changes exactly the last-orientation cursor,
setting it to the quaternion it returns. -/
theorem c10_frame (st : GenState) :
    (∀ s, (generate_pos st s).2 = st) ∧
    (∀ mt step, (get_samples st mt step).2 = st) ∧
    (∀ s q st2, generate_quat st s = .ok (q, st2) →
      st2 = { st with last_rot := q }) := by
  refine ⟨fun s => rfl, fun mt step => rfl, ?_⟩
  intro s q st2 h
  simp only [generate_quat] at h
  by_cases h0 : min (max 0 s) 1 = 0
  · rw [if_pos h0] at h
    simp only [Except.ok.injEq, Prod.mk.injEq] at h
    obtain ⟨hq, hst⟩ := h
    rw [← hst, ← hq]
  · rw [if_neg h0] at h
    rcases hp : (generate_pos st (min (max 0 s) 1)).1 with _ | tp <;>
      rw [hp] at h
    · rcases hl : (generate_pos st (max 0 (min (max 0 s) 1 - st.s_step))).1 with
        _ | lp <;> rcases hh : st.heading_fn with _ | hf <;>
        rw [hl, hh] at h <;> simp at h
    · rcases hl : (generate_pos st (max 0 (min (max 0 s) 1 - st.s_step))).1 with
        _ | lp <;> rw [hl] at h
      · rcases hh : st.heading_fn with _ | hf <;> rw [hh] at h <;> simp at h
      · rcases hh : st.heading_fn with _ | hf <;> rw [hh] at h
        · simp at h
        · simp only [Except.ok.injEq, Prod.mk.injEq] at h
          obtain ⟨hq, hst⟩ := h
          rw [← hst, ← hq]

/-- C10 witness: on the compiled example generator, sampling leaves the state
untouched, and a `generate_quat` call (here at clamped `s = -1`, returning
the initial orientation) ends in a state differing in the cursor alone. -/
theorem c10_frame_witness :
    (generate_pos stEx (1/2)).2 = stEx ∧
    (get_samples stEx none (1/10)).2 = stEx ∧
    ({ stEx with last_rot := stEx.init_rot } =
      { stEx with last_rot := stEx.init_rot }) := by
  have h := c10_frame stEx
  have hq : generate_quat stEx (-1) =
      .ok (stEx.init_rot, { stEx with last_rot := stEx.init_rot }) := by
    have h2 : min (max 0 (-1 : ℝ)) 1 = 0 := by norm_num
    simp [generate_quat, h2]
  exact ⟨h.1 (1/2), h.2.1 none (1/10),
    h.2.2 (-1) stEx.init_rot { stEx with last_rot := stEx.init_rot } hq⟩

lemma getD_range (K j : ℕ) (h : j < K) (d : ℕ) : (List.range K).getD j d = j := by
  rw [List.getD_eq_getElem?_getD, List.getElem?_range h]
  rfl

/-- The quaternion §4.4 of the spec prescribes for a query `s ∈ (0, 1]`: the
look-direction quaternion of the finite-difference tangent between
`generate_pos(s)` and `generate_pos(max(0, s - step))`, right-multiplied by
the rotation about the vertical axis `(0,0,1)` by the heading-spline value at
`s`. -/
noncomputable def look_step_quat (st : GenState) (hf : ℝ → ℝ) (s : ℝ) : Quat :=
  let this_pos := ((generate_pos st s).1).getD default
  let last_pos := ((generate_pos st (max 0 (s - st.s_step))).1).getD default
  quaternion_multiply
    (compute_rot_quat st.last_rot (this_pos.x - last_pos.x)
      (this_pos.y - last_pos.y) (this_pos.z - last_pos.z))
    (quaternion_about_axis (hf s) 0 0 1)

/-- C4: on a compiled generator, for every `s ∈ (0, 1]`, `generate_quat(s)`
returns the look-direction quaternion of the finite-difference tangent
right-multiplied by the quaternion of rotation about the vertical axis
`(0,0,1)` by the heading-spline value at `s`, and stores exactly this
composed quaternion in the last-orientation cursor. -/
theorem c4_quat_composition (st : GenState) (segs : List LineSegment)
    (hf : ℝ → ℝ) (hp : st.interp_pos = some segs) (hh : st.heading_fn = some hf)
    (s : ℝ) (hs0 : 0 < s) (hs1 : s ≤ 1) :
    generate_quat st s =
      .ok (look_step_quat st hf s,
        { st with last_rot := look_step_quat st hf s }) := by
  have hclamp : min (max 0 s) 1 = s := by
    rw [max_eq_right hs0.le]
    exact min_eq_left hs1
  obtain ⟨tp, htp⟩ := generate_pos_isSome st segs hp s
  obtain ⟨lp, hlp⟩ := generate_pos_isSome st segs hp (max 0 (s - st.s_step))
  simp only [generate_quat, hclamp, if_neg (ne_of_gt hs0)]
  rw [htp, hlp, hh]
  simp only [look_step_quat, htp, hlp, Option.getD_some]

/-- C4 witness: on the compiled example generator at `s = 1`. -/
theorem c4_quat_composition_witness :
    stEx.interp_pos = some [seg01] ∧
    stEx.heading_fn = some (fun _ => 0) ∧
    (0 : ℝ) < 1 ∧ (1 : ℝ) ≤ 1 ∧
    generate_quat stEx 1 =
      .ok (look_step_quat stEx (fun _ => 0) 1,
        { stEx with last_rot := look_step_quat stEx (fun _ => 0) 1 }) :=
  ⟨rfl, rfl, one_pos, le_refl 1,
    c4_quat_composition stEx [seg01] (fun _ => 0) rfl rfl 1 one_pos (le_refl 1)⟩

/-- C6 is refuted as stated: with `step = 2` on the compiled example
generator, `np.arange(0, 1 + 2, 2)` yields samples at `s = 0` and `s = 2`;
the second sample is evaluated at the unclamped `s = 2` and extrapolates to
`(2, 0, 0)`, past the final waypoint, instead of being clamped to the `s = 1`
position `(1, 0, 0)`. -/
theorem c6_samples_cex :
    ((get_samples stEx none 2).1.getD []).map TrajectoryPoint.pos =
      [some ⟨0, 0, 0⟩, some ⟨2, 0, 0⟩] ∧
    (generate_pos stEx 1).1 = some ⟨1, 0, 0⟩ ∧
    some (⟨2, 0, 0⟩ : Vec3) ≠ some (⟨1, 0, 0⟩ : Vec3) := by
  have hceil : (⌈((1 : ℝ) + 2 - 0) / 2⌉) = 2 := by
    rw [Int.ceil_eq_iff]
    constructor <;> norm_num
  have harange : arange 0 (1 + 2) 2 = [0, 2] := by
    simp only [arange, hceil]
    have hr : List.range (Int.toNat 2) = [0, 1] := rfl
    rw [hr, List.map_cons, List.map_cons, List.map_nil]
    norm_num
  have hw : stEx.waypoints = some [wpA, wpB] := rfl
  have hp : stEx.interp_pos = some [seg01] := rfl
  have hsamp : (get_samples stEx none 2).1 =
      some (([0, 2] : List ℝ).map
        (fun i => ({ t := 0, pos := (generate_pos stEx i).1, rotq := none } : TrajectoryPoint))) := by
    simp only [get_samples, hw, hp]
    rw [harange]
  refine ⟨?_, stEx_pos 1 (by norm_num), ?_⟩
  · rw [hsamp]
    simp only [Option.getD_some, List.map_cons, List.map_nil]
    rw [stEx_pos_zero, stEx_pos 2 (by norm_num)]
  · intro hcontra
    rw [Option.some.injEq] at hcontra
    have hx := congrArg Vec3.x hcontra
    norm_num at hx

/-- C6 (amended): for every compiled generator and step, `get_samples`
returns one point per value of `np.arange(0, 1 + step, step)` — the multiples
`j·step` for `0 ≤ j < ⌈(1 + step)/step⌉` — evaluated at their unclamped
parameters (so a final sample beyond 1 is extrapolated rather than clamped);
each point carries timestamp 0 and only its position; with `step = 1/10`
there are exactly 11 points spanning `s = 0` to `1`. -/
theorem c6_samples_amended (st : GenState) (ws : List Waypoint)
    (segs : List LineSegment) (hw : st.waypoints = some ws)
    (hp : st.interp_pos = some segs) (mt : Option ℝ) (step : ℝ) :
    ∃ pts, (get_samples st mt step).1 = some pts ∧
      pts.length = (⌈(1 + step) / step⌉).toNat ∧
      (∀ j, j < pts.length →
        pts.getD j default =
          { t := 0, pos := (generate_pos st ((j : ℝ) * step)).1, rotq := none }) ∧
      (step = 1 / 10 → pts.length = 11) := by
  refine ⟨(arange 0 (1 + step) step).map
      (fun i => { t := 0, pos := (generate_pos st i).1, rotq := none }),
    ?_, ?_, ?_, ?_⟩
  · simp only [get_samples, hw, hp]
  · rw [List.length_map]
    simp only [arange, List.length_map, List.length_range, sub_zero]
  · intro j hj
    rw [List.length_map] at hj
    rw [getD_map_lt _ _ j hj default 0]
    have hj3 : j < (List.range (⌈(1 + step - 0) / step⌉).toNat).length := by
      simp only [arange, List.length_map] at hj
      exact hj
    have ha : (arange 0 (1 + step) step).getD j 0 = 0 + (j : ℝ) * step := by
      simp only [arange]
      rw [getD_map_lt _ _ j hj3 0 0,
        getD_range _ _ (by rw [List.length_range] at hj3; exact hj3) 0]
    rw [ha, zero_add]
  · intro hstep
    subst hstep
    rw [List.length_map]
    simp only [arange, List.length_map, List.length_range]
    have h11 : (⌈((1 : ℝ) + 1 / 10 - 0) / (1 / 10)⌉) = 11 := by norm_num
    rw [h11]
    rfl

/-- C6 (amended) witness: on the compiled example generator with
`step = 1/10`, giving exactly 11 sample points. -/
theorem c6_samples_amended_witness :
    stEx.waypoints = some [wpA, wpB] ∧ stEx.interp_pos = some [seg01] ∧
    (∃ pts, (get_samples stEx none (1 / 10)).1 = some pts ∧
      pts.length = (⌈(1 + (1 / 10 : ℝ)) / (1 / 10)⌉).toNat ∧
      (∀ j, j < pts.length →
        pts.getD j default =
          { t := 0, pos := (generate_pos stEx ((j : ℝ) * (1 / 10))).1, rotq := none }) ∧
      ((1 / 10 : ℝ) = 1 / 10 → pts.length = 11)) :=
  ⟨rfl, rfl, c6_samples_amended stEx [wpA, wpB] [seg01] rfl rfl none (1 / 10)⟩

/-- C8 is refuted as stated: `generate_pnt` on a not-yet-compiled generator
dereferences the absent position (`None.tolist()` raises an
`AttributeError` in the Python source), modelled by the `Except.error`
outcome, rather than reporting an absent result. -/
theorem c8_no_throw_cex : generate_pnt GenState.fresh 0 0 = .error () := rfl

/-- C8 (amended): on a compiled generator every public operation reports its
outcome without raising: `generate_pnt` and `generate_quat` succeed for every
input, `generate_pos` and `get_samples` return values, and `set_parameters`
succeeds; only calling `generate_pnt`/`generate_quat` on a not-compiled
generator raises. -/
theorem c8_no_throw_amended (st : GenState) (ws : List Waypoint)
    (segs : List LineSegment) (hf : ℝ → ℝ) (hw : st.waypoints = some ws)
    (hp : st.interp_pos = some segs) (hh : st.heading_fn = some hf) :
    (∀ s t, ∃ r, generate_pnt st s t = .ok r) ∧
    (∀ s, ∃ r, generate_quat st s = .ok r) ∧
    (∀ s, ∃ v, (generate_pos st s).1 = some v) ∧
    (∀ mt step, ∃ pts, (get_samples st mt step).1 = some pts) ∧
    (∀ u, set_parameters st u = (true, st)) := by
  have hquat : ∀ s, ∃ r, generate_quat st s = .ok r := by
    intro s
    by_cases h0 : min (max 0 s) 1 = 0
    · refine ⟨(st.init_rot, { st with last_rot := st.init_rot }), ?_⟩
      simp [generate_quat, h0]
    · obtain ⟨tp, htp⟩ := generate_pos_isSome st segs hp (min (max 0 s) 1)
      obtain ⟨lp, hlp⟩ := generate_pos_isSome st segs hp
        (max 0 (min (max 0 s) 1 - st.s_step))
      set q2 : Quat := quaternion_multiply
        (compute_rot_quat st.last_rot (tp.x - lp.x) (tp.y - lp.y) (tp.z - lp.z))
        (quaternion_about_axis (hf (min (max 0 s) 1)) 0 0 1) with hq2
      refine ⟨(q2, { st with last_rot := q2 }), ?_⟩
      simp only [generate_quat, if_neg h0]
      rw [htp, hlp, hh, hq2]
  refine ⟨?_, hquat, fun s => generate_pos_isSome st segs hp s, ?_, fun u => rfl⟩
  · intro s t
    obtain ⟨p, hpos⟩ := generate_pos_isSome st segs hp s
    obtain ⟨⟨q, st2⟩, hq⟩ := hquat s
    refine ⟨({ t := t, pos := some p, rotq := some q }, st2), ?_⟩
    simp only [generate_pnt]
    rw [hpos, hq]
  · intro mt step
    refine ⟨(arange 0 (1 + step) step).map
      (fun i => { t := 0, pos := (generate_pos st i).1, rotq := none }), ?_⟩
    simp only [get_samples, hw, hp]

/-- C8 (amended) witness: on the compiled example generator. -/
theorem c8_no_throw_amended_witness :
    stEx.waypoints = some [wpA, wpB] ∧ stEx.interp_pos = some [seg01] ∧
    stEx.heading_fn = some (fun _ => 0) ∧
    (∃ r, generate_pnt stEx (1 / 2) 0 = .ok r) ∧
    (∃ r, generate_quat stEx (1 / 2) = .ok r) ∧
    (∃ v, (generate_pos stEx (1 / 2)).1 = some v) ∧
    (∃ pts, (get_samples stEx none (1 / 10)).1 = some pts) ∧
    set_parameters stEx () = (true, stEx) := by
  have h := c8_no_throw_amended stEx [wpA, wpB] [seg01] (fun _ => 0) rfl rfl rfl
  exact ⟨rfl, rfl, rfl, h.1 (1 / 2) 0, h.2.1 (1 / 2), h.2.2.1 (1 / 2),
    h.2.2.2.1 none (1 / 10), h.2.2.2.2 ()⟩

end Plankton
